import Mathlib

/-!
Shallow embedding of the marker-timeline logic of the PresentAI web client:
the marker geometry utilities (frontend/src/utils/markers.js), the track
assignment algorithm and the marker click handler of
frontend/src/components/VideoPlayer.jsx, the selection reconciliation
handlers of frontend/src/pages/Results.jsx, and the status-poll fallback of
the Loading page.  Times and durations are modelled as rationals
(JavaScript numbers without NaN; the JavaScript falsy test on a duration is
modelled as equality with 0, since NaN is also falsy and lies outside the
model).
-/

/-- A feedback marker as delivered by the backend: a category string, a
closed time interval from start to end, a short label, free feedback text
and an optional severity.  Mirrors the object shape used by the client;
the reserved word end is rendered as the field end_. -/
structure Marker where
  category : String
  start : ℚ
  end_ : ℚ
  label : String
  feedback : String
  severity : Option ℚ
  deriving DecidableEq, Repr

/-- Embedding of calculateMarkerPosition from utils/markers.js: returns 0
when the duration is falsy (modelled as 0), otherwise
startTime / duration * 100.  There is no clamping in the source. -/
def calculateMarkerPosition (startTime duration : ℚ) : ℚ :=
  if duration = 0 then 0 else startTime / duration * 100

/-- Embedding of calculateMarkerWidth from utils/markers.js: returns 0 when
the duration is falsy (modelled as 0), otherwise
(endTime - startTime) / duration * 100. -/
def calculateMarkerWidth (startTime endTime duration : ℚ) : ℚ :=
  if duration = 0 then 0 else (endTime - startTime) / duration * 100

/-- Embedding of getCurrentMarker from utils/markers.js: Array.find over the
list, so the first marker in list order whose closed interval contains
currentTime, and none when no interval contains it. -/
def getCurrentMarker (markers : List Marker) (currentTime : ℚ) : Option Marker :=
  markers.find? (fun marker =>
    decide (currentTime ≥ marker.start) && decide (currentTime ≤ marker.end_))

/-- Embedding of sortMarkersBySeverity from utils/markers.js: a stable sort
of a spread copy of the list, descending by severity, a missing severity
being read as 0 (the JavaScript expression b.severity || 0).  The JavaScript
comparator (a, b) => (b.severity || 0) - (a.severity || 0) keeps a before b
exactly when the severity of b is at most the severity of a. -/
def sortMarkersBySeverity (markers : List Marker) : List Marker :=
  markers.mergeSort (fun a b => decide (b.severity.getD 0 ≤ a.severity.getD 0))

/-- Overlap test used inside assignMarkersToTracks of VideoPlayer.jsx: both
markers are mapped to percentage intervals on the timeline, with
right = left + width, and the source tests
!(right <= existingLeft || left >= existingRight). -/
def overlapsOnTimeline (duration : ℚ) (marker existingMarker : Marker) : Bool :=
  let left := calculateMarkerPosition marker.start duration
  let width := calculateMarkerWidth marker.start marker.end_ duration
  let right := left + width
  let existingLeft := calculateMarkerPosition existingMarker.start duration
  let existingWidth := calculateMarkerWidth existingMarker.start existingMarker.end_ duration
  let existingRight := existingLeft + existingWidth
  !(decide (right ≤ existingLeft) || decide (left ≥ existingRight))

/-- One iteration of the assignMarkersToTracks loop of VideoPlayer.jsx: scan
the tracks in order, push the marker onto the first track none of whose
members overlaps it on the timeline, and push a new singleton track at the
end when every existing track overlaps. -/
def insertIntoTracks (duration : ℚ) (marker : Marker) :
    List (List Marker) → List (List Marker)
  | [] => [[marker]]
  | track :: rest =>
      if track.all (fun existingMarker => !overlapsOnTimeline duration marker existingMarker) then
        (track ++ [marker]) :: rest
      else
        track :: insertIntoTracks duration marker rest

/-- Embedding of assignMarkersToTracks from VideoPlayer.jsx: a null or empty
marker list or a falsy duration yields the empty track list; otherwise a
spread copy of the list is stably sorted by start time, the comparator
being (a, b) => a.start - b.start, and each marker in sorted order is
inserted into the first track it does not overlap. -/
def assignMarkersToTracks (markers : Option (List Marker)) (duration : ℚ) :
    List (List Marker) :=
  match markers with
  | none => []
  | some ms =>
      if ms = [] ∨ duration = 0 then []
      else
        (ms.mergeSort (fun a b => decide (a.start ≤ b.start))).foldl
          (fun tracks marker => insertIntoTracks duration marker tracks) []

/-- Observable effects of the marker click handler of VideoPlayer.jsx, in
the order the handler issues them. -/
inductive PlayerEffect where
  | selectMarker (marker : Marker)
  | seekTo (time : ℚ)
  | displayTime (time : ℚ)
  deriving DecidableEq, Repr

/-- Embedding of handleMarkerClickInternal from VideoPlayer.jsx as the list
of effects it emits: nothing when the video element is absent; otherwise
the onMarkerClick callback first, then — inside the requestAnimationFrame
callback that the handler schedules after the callback has run — the write
of max(0, marker.start - 1) to video.currentTime followed by the
setCurrentTime state update with the same value. -/
def handleMarkerClickInternal (videoPresent : Bool) (marker : Marker) :
    List PlayerEffect :=
  if videoPresent then
    [PlayerEffect.selectMarker marker,
     PlayerEffect.seekTo (max 0 (marker.start - 1)),
     PlayerEffect.displayTime (max 0 (marker.start - 1))]
  else []

/-- Marker identity key used by Results.jsx: the handlers compare markers
through the template string category-start-end, modelled by the triple of
its components. -/
def markerKey (m : Marker) : String × ℚ × ℚ := (m.category, m.start, m.end_)

/-- Selection-relevant state of the Results page: the displayed time, the
displayed marker (selectedMarker), the manual selection React state
(manuallySelectedMarker) and the synchronous manual selection ref
(manualSelectionRef.current). -/
structure ResultsState where
  currentTime : ℚ
  selectedMarker : Option Marker
  manuallySelectedMarker : Option Marker
  manualSelectionRef : Option Marker
  deriving DecidableEq, Repr

/-- Embedding of handleMarkerClick from Results.jsx.  The handler looks the
clicked marker up in data.markers by its key (keeping the clicked marker
when data is absent or no key match exists), copies it with a category
fallback to gestures for a falsy category, writes the copy synchronously to
manualSelectionRef.current and schedules it into both
manuallySelectedMarker and selectedMarker.  The 300 ms timeout the handler
arms is never read by the selection logic and is left out of the state. -/
def handleMarkerClick (dataMarkers : Option (List Marker)) (s : ResultsState)
    (marker : Marker) : ResultsState :=
  let exactMarker :=
    match dataMarkers with
    | none => marker
    | some ms =>
        (ms.find? (fun m : Marker =>
          decide (m.category = marker.category) &&
          decide (m.start = marker.start) &&
          decide (m.end_ = marker.end_))).getD marker
  let markerCopy :=
    { exactMarker with
        category := if exactMarker.category = "" then "gestures" else exactMarker.category }
  { s with
      manualSelectionRef := some markerCopy,
      manuallySelectedMarker := some markerCopy,
      selectedMarker := some markerCopy }

/-- Automatic part of handleTimeUpdate (Results.jsx): runs only when data
and its markers are present.  React state reads inside one invocation see
the values of the render the handler was created in, so the guards read the
stale selectedMarker and manuallySelectedMarker passed as stale, while the
writes land on s1. -/
def autoSelectStep (dataMarkers : Option (List Marker)) (stale s1 : ResultsState)
    (time : ℚ) : ResultsState :=
  match dataMarkers with
  | none => s1
  | some ms =>
      match getCurrentMarker ms time with
      | some marker =>
          if some (markerKey marker) = stale.selectedMarker.map markerKey then s1
          else { s1 with selectedMarker := some marker }
      | none =>
          if stale.selectedMarker.isSome && stale.manuallySelectedMarker.isNone then
            { s1 with selectedMarker := none }
          else s1

/-- Embedding of handleTimeUpdate from Results.jsx.  The manual selection is
read through the synchronous ref first, falling back to the state value.
Inside the buffer window of 2 seconds around the manual marker the update
keeps the manual selection and returns early; outside it the ref is cleared
synchronously, the state clear is scheduled, and the automatic lookup runs,
its guard still reading the stale manuallySelectedMarker of this render. -/
def handleTimeUpdate (dataMarkers : Option (List Marker)) (s : ResultsState)
    (time : ℚ) : ResultsState :=
  let s0 := { s with currentTime := time }
  let currentManualSelection :=
    match s.manualSelectionRef with
    | some m => some m
    | none => s.manuallySelectedMarker
  match currentManualSelection with
  | some cm =>
      if cm.start - 2 ≤ time ∧ time ≤ cm.end_ + 2 then
        if some (markerKey cm) = s.selectedMarker.map markerKey then s0
        else
          { s0 with
              selectedMarker := some cm,
              manuallySelectedMarker :=
                match s.manuallySelectedMarker with
                | none => some cm
                | some old => if markerKey cm = markerKey old then some old else some cm }
      else
        autoSelectStep dataMarkers s
          { s0 with manualSelectionRef := none, manuallySelectedMarker := none } time
  | none => autoSelectStep dataMarkers s s0 time

/-- Action visible to the user after one run of pollStatus in the Loading
page. -/
inductive PollAction where
  | navigateToResults
  | showError (message : String)
  | continuePolling (displayStatus : String)
  | skipPoll
  deriving DecidableEq, Repr

/-- Outcome of one run of pollStatus: the user-visible action, whether the
polling interval was cleared, the value of isNavigatingRef afterwards, and
how many direct getResult fetches the run performed. -/
structure PollStep where
  action : PollAction
  stoppedPolling : Bool
  navigatingAfter : Bool
  resultFetches : Nat
  deriving DecidableEq, Repr

/-- Embedding of pollStatus from the Loading page.  A run is skipped when a
navigation is already in flight.  A completed status navigates at once.  A
failed status triggers exactly one direct getResult fetch: on success the
client navigates to the results view, on failure it surfaces the
analysis-failed error; both terminal branches clear the interval and set
isNavigatingRef.  Any other status keeps polling, a falsy status string
being displayed as processing.  When the status request itself throws, one
direct fetch is likewise attempted, but its failure leaves the interval
running. -/
def pollStatus (isNavigating : Bool) (statusResponse : Except Unit String)
    (resultFetch : Except Unit Unit) : PollStep :=
  if isNavigating then
    { action := PollAction.skipPoll, stoppedPolling := false,
      navigatingAfter := true, resultFetches := 0 }
  else
    match statusResponse with
    | Except.ok st =>
        if st = "completed" then
          { action := PollAction.navigateToResults, stoppedPolling := true,
            navigatingAfter := true, resultFetches := 0 }
        else if st = "failed" then
          match resultFetch with
          | Except.ok _ =>
              { action := PollAction.navigateToResults, stoppedPolling := true,
                navigatingAfter := true, resultFetches := 1 }
          | Except.error _ =>
              { action := PollAction.showError "Analysis failed. Please try again.",
                stoppedPolling := true, navigatingAfter := true, resultFetches := 1 }
        else
          { action := PollAction.continuePolling (if st = "" then "processing" else st),
            stoppedPolling := false, navigatingAfter := false, resultFetches := 0 }
    | Except.error _ =>
        match resultFetch with
        | Except.ok _ =>
            { action := PollAction.navigateToResults, stoppedPolling := true,
              navigatingAfter := true, resultFetches := 1 }
        | Except.error _ =>
            { action := PollAction.showError "Failed to check status. Please refresh the page.",
              stoppedPolling := false, navigatingAfter := false, resultFetches := 1 }

/-- Position function as the specification words it, for comparison with the
source: the percentage clamped to the interval from 0 to 100, with the
guard for non-positive durations. -/
def clampedPositionSpec (startTime duration : ℚ) : ℚ :=
  if duration ≤ 0 then 0 else min 100 (max 0 (startTime / duration * 100))

/-- Strict overlap of the closed time intervals of two markers: they share
more than a boundary point.  The specification words overlap the same way:
two intervals overlap unless the end of one is at most the start of the
other. -/
def overlapInTime (a b : Marker) : Prop := a.start < b.end_ ∧ b.start < a.end_

/-- Number of markers of the list whose closed interval contains the
instant t: the markers simultaneously present at that instant. -/
def countCovering (ms : List Marker) (t : ℚ) : Nat :=
  (ms.filter (fun m => decide (m.start ≤ t ∧ t ≤ m.end_))).length

/-- Concrete marker covering the interval from 10 to 20, used to evaluate
the Results handlers at concrete inputs. -/
def sampleMarker : Marker :=
  { category := "gestures", start := 10, end_ := 20,
    label := "eye contact", feedback := "", severity := none }

/-- Initial selection state of the Results page: time 0, nothing selected,
no manual selection, empty ref. -/
def initialResultsState : ResultsState :=
  { currentTime := 0, selectedMarker := none,
    manuallySelectedMarker := none, manualSelectionRef := none }

/-- Three concrete markers with intervals 0 to 5, 2 to 8 and 6 to 10; the
layout scenario used by the specification (two lanes). -/
def demoMarkers : List Marker :=
  [{ category := "gestures", start := 0, end_ := 5,
     label := "a", feedback := "", severity := some 1 },
   { category := "clarity", start := 2, end_ := 8,
     label := "b", feedback := "", severity := some 3 },
   { category := "content", start := 6, end_ := 10,
     label := "c", feedback := "", severity := some 2 }]

/-- C4: getCurrentMarker returns the first marker in list order whose closed
interval contains the time t — the returned marker covers t and every
marker before it in the list fails to cover t — and returns none exactly
when no marker of the list covers t. -/
theorem getCurrentMarker_first_match (ms : List Marker) (t : ℚ) :
    (∀ M, getCurrentMarker ms t = some M →
      (M.start ≤ t ∧ t ≤ M.end_) ∧
      ∃ l1 l2, ms = l1 ++ M :: l2 ∧ ∀ x ∈ l1, ¬(x.start ≤ t ∧ t ≤ x.end_)) ∧
    (getCurrentMarker ms t = none ↔ ∀ m ∈ ms, ¬(m.start ≤ t ∧ t ≤ m.end_)) := by
  constructor
  · intro M hM
    rw [getCurrentMarker, List.find?_eq_some] at hM
    obtain ⟨hp, l1, l2, hms, hbefore⟩ := hM
    simp only [Bool.and_eq_true, decide_eq_true_eq, ge_iff_le] at hp
    refine ⟨⟨hp.1, hp.2⟩, l1, l2, hms, ?_⟩
    intro x hx hcov
    have hfail := hbefore x hx
    simp only [Bool.not_eq_true', Bool.and_eq_false_iff,
      decide_eq_false_iff_not, ge_iff_le, not_le] at hfail
    rcases hfail with h | h
    · exact absurd hcov.1 (not_le_of_lt h)
    · exact absurd hcov.2 (not_le_of_lt h)
  · rw [getCurrentMarker, List.find?_eq_none]
    constructor
    · intro h m hm hcov
      have hfail := h m hm
      simp only [Bool.and_eq_true, decide_eq_true_eq, ge_iff_le, not_and] at hfail
      exact hfail hcov.1 hcov.2
    · intro h m hm
      simp only [Bool.and_eq_true, decide_eq_true_eq, ge_iff_le, not_and]
      intro h1 h2
      exact h m hm ⟨h1, h2⟩

/-- C5 counterexample: at start 2 and duration 1 the source position is 200
while the clamped value demanded by the claim is 100, so
calculateMarkerPosition does not clamp to the interval from 0 to 100. -/
theorem calculateMarkerPosition_no_clamp_counterexample :
    calculateMarkerPosition 2 1 = 200 ∧ clampedPositionSpec 2 1 = 100 ∧
    calculateMarkerPosition 2 1 ≠ clampedPositionSpec 2 1 := by
  norm_num [calculateMarkerPosition, clampedPositionSpec]

/-- C5 amended: for every positive duration d the position is exactly
s / d * 100, with no clamping applied; in particular for 0 ≤ s ≤ d the
value equals s / d * 100, which already lies between 0 and 100. -/
theorem calculateMarkerPosition_exact (s d : ℚ) (hd : 0 < d) :
    calculateMarkerPosition s d = s / d * 100 ∧
    (0 ≤ s → s ≤ d →
      0 ≤ calculateMarkerPosition s d ∧ calculateMarkerPosition s d ≤ 100) := by
  have hne : d ≠ 0 := ne_of_gt hd
  refine ⟨by rw [calculateMarkerPosition, if_neg hne], ?_⟩
  intro h0 hsd
  rw [calculateMarkerPosition, if_neg hne]
  constructor
  · positivity
  · have hdiv : s / d ≤ 1 := (div_le_one hd).mpr hsd
    nlinarith

/-- Witness for the amended C5 at start 1 and duration 2. -/
theorem calculateMarkerPosition_exact_witness :
    calculateMarkerPosition 1 2 = 1 / 2 * 100 ∧
    (0 ≤ (1 : ℚ) → (1 : ℚ) ≤ 2 →
      0 ≤ calculateMarkerPosition 1 2 ∧ calculateMarkerPosition 1 2 ≤ 100) :=
  calculateMarkerPosition_exact 1 2 (by norm_num)

/-- C6 counterexample: a negative duration is truthy in JavaScript, so the
guard does not fire and the division is reached: at duration -5 the
position of start 5 is -100 and the width of the interval from 0 to 5 is
-100, neither of which is 0. -/
theorem negative_duration_counterexample :
    calculateMarkerPosition 5 (-5) = -100 ∧ calculateMarkerWidth 0 5 (-5) = -100 ∧
    calculateMarkerPosition 5 (-5) ≠ 0 ∧ calculateMarkerWidth 0 5 (-5) ≠ 0 := by
  norm_num [calculateMarkerPosition, calculateMarkerWidth]

/-- C6 amended: the division guard fires exactly for a falsy duration, that
is duration 0 in this model (NaN, the other falsy number, lies outside it):
both geometry functions return 0 at duration 0 for all starts and ends,
while negative durations reach the division. -/
theorem zero_duration_guard (s e : ℚ) :
    calculateMarkerPosition s 0 = 0 ∧ calculateMarkerWidth s e 0 = 0 := by
  simp [calculateMarkerPosition, calculateMarkerWidth]

/-- C7: when the status poll reports failed, the poller performs exactly one
direct result fetch for the job; a successful fetch makes the client stop
polling and navigate to the results view, and only a failing fetch surfaces
the analysis-failed error, likewise giving up polling. -/
theorem pollStatus_failed_fallback :
    pollStatus false (Except.ok "failed") (Except.ok ()) =
      { action := PollAction.navigateToResults, stoppedPolling := true,
        navigatingAfter := true, resultFetches := 1 } ∧
    pollStatus false (Except.ok "failed") (Except.error ()) =
      { action := PollAction.showError "Analysis failed. Please try again.",
        stoppedPolling := true, navigatingAfter := true, resultFetches := 1 } ∧
    ∀ fetch : Except Unit Unit,
      (pollStatus false (Except.ok "failed") fetch).resultFetches = 1 := by
  refine ⟨rfl, rfl, ?_⟩
  intro fetch
  cases fetch <;> rfl

/-- C8: the click handler emits the manual-selection callback strictly
before the programmatic seek, and the seek target is max(0, start - 1): the
effect list is exactly the callback, the seek, then the display update, and
every seek effect sits at a strictly larger index than an index holding the
selection callback. -/
theorem handleMarkerClickInternal_order (m : Marker) :
    handleMarkerClickInternal true m =
      [PlayerEffect.selectMarker m, PlayerEffect.seekTo (max 0 (m.start - 1)),
       PlayerEffect.displayTime (max 0 (m.start - 1))] ∧
    ∀ (j : ℕ) (t : ℚ),
      (handleMarkerClickInternal true m)[j]? = some (PlayerEffect.seekTo t) →
      ∃ i, i < j ∧
        (handleMarkerClickInternal true m)[i]? = some (PlayerEffect.selectMarker m) := by
  constructor
  · rfl
  · intro j t hj
    match j with
    | 0 => simp [handleMarkerClickInternal] at hj
    | 1 => exact ⟨0, by omega, rfl⟩
    | 2 => simp [handleMarkerClickInternal] at hj
    | n + 3 => simp [handleMarkerClickInternal] at hj

/-- C10: assignMarkersToTracks yields the empty lane list whenever the
marker list is null or empty or the duration is falsy (0 in this model), so
no marker lanes exist before a positive duration is known. -/
theorem assignMarkersToTracks_guard (oms : Option (List Marker)) (d : ℚ)
    (h : oms = none ∨ oms = some [] ∨ d = 0) :
    assignMarkersToTracks oms d = [] := by
  rcases h with h | h | h
  · subst h; rfl
  · subst h; simp [assignMarkersToTracks]
  · subst h
    cases oms with
    | none => rfl
    | some ms => simp [assignMarkersToTracks]

/-- Witness for C10 at a null marker list and duration 1. -/
theorem assignMarkersToTracks_guard_witness :
    assignMarkersToTracks none 1 = [] :=
  assignMarkersToTracks_guard none 1 (Or.inl rfl)

/-- After a click on a marker whose key lookup in the data returns the
marker itself and whose category string is non-empty, all three selection
fields of the state hold exactly that marker. -/
theorem handleMarkerClick_exact (dataMarkers : List Marker) (s : ResultsState)
    (M : Marker)
    (hfind : dataMarkers.find? (fun m : Marker =>
        decide (m.category = M.category) && decide (m.start = M.start) &&
        decide (m.end_ = M.end_)) = some M)
    (hcat : M.category ≠ "") :
    handleMarkerClick (some dataMarkers) s M =
      { s with manualSelectionRef := some M, manuallySelectedMarker := some M,
               selectedMarker := some M } := by
  simp only [handleMarkerClick, hfind, Option.getD_some, if_neg hcat]

/-- One in-buffer time update on a state whose three selection fields all
hold the manual marker changes nothing but the displayed time. -/
theorem handleTimeUpdate_inBuffer (dataMarkers : Option (List Marker))
    (st : ResultsState) (M : Marker) (u : ℚ)
    (h1 : st.manualSelectionRef = some M) (h2 : st.manuallySelectedMarker = some M)
    (h3 : st.selectedMarker = some M)
    (hlo : M.start - 2 ≤ u) (hhi : u ≤ M.end_ + 2) :
    handleTimeUpdate dataMarkers st u = { st with currentTime := u } := by
  unfold handleTimeUpdate
  rw [h1, h3]
  simp [hlo, hhi]

/-- C2: clicking a marker M of the result set — whose key lookup returns M
itself and whose category is non-empty — and then receiving any sequence of
time updates inside the buffer window from M.start - 2 to M.end + 2 (in
particular the lookback landing at M.start - 1) keeps the selection equal
to M throughout: displayed marker, manual state and manual ref still hold
M, never none and never an automatic replacement. -/
theorem manual_selection_sticky (dataMarkers : List Marker) (s : ResultsState)
    (M : Marker) (t : ℚ)
    (hfind : dataMarkers.find? (fun m : Marker =>
        decide (m.category = M.category) && decide (m.start = M.start) &&
        decide (m.end_ = M.end_)) = some M)
    (hcat : M.category ≠ "")
    (hlo : M.start - 2 ≤ t) (hhi : t ≤ M.end_ + 2) :
    ∀ ts : List ℚ, (∀ u ∈ ts, M.start - 2 ≤ u ∧ u ≤ M.end_ + 2) →
      ((t :: ts).foldl (fun st u => handleTimeUpdate (some dataMarkers) st u)
          (handleMarkerClick (some dataMarkers) s M)).selectedMarker = some M ∧
      ((t :: ts).foldl (fun st u => handleTimeUpdate (some dataMarkers) st u)
          (handleMarkerClick (some dataMarkers) s M)).manuallySelectedMarker = some M ∧
      ((t :: ts).foldl (fun st u => handleTimeUpdate (some dataMarkers) st u)
          (handleMarkerClick (some dataMarkers) s M)).manualSelectionRef = some M := by
  have key : ∀ (us : List ℚ) (st : ResultsState),
      st.manualSelectionRef = some M → st.manuallySelectedMarker = some M →
      st.selectedMarker = some M →
      (∀ u ∈ us, M.start - 2 ≤ u ∧ u ≤ M.end_ + 2) →
      ((us.foldl (fun st u => handleTimeUpdate (some dataMarkers) st u) st).selectedMarker
          = some M ∧
       (us.foldl (fun st u => handleTimeUpdate (some dataMarkers) st u) st).manuallySelectedMarker
          = some M ∧
       (us.foldl (fun st u => handleTimeUpdate (some dataMarkers) st u) st).manualSelectionRef
          = some M) := by
    intro us
    induction us with
    | nil => intro st h1 h2 h3 _; exact ⟨h3, h2, h1⟩
    | cons u us ih =>
        intro st h1 h2 h3 hall
        have hu := hall u (by simp)
        rw [List.foldl_cons,
          handleTimeUpdate_inBuffer (some dataMarkers) st M u h1 h2 h3 hu.1 hu.2]
        exact ih _ h1 h2 h3 (fun v hv => hall v (by simp [hv]))
  intro ts hts
  rw [handleMarkerClick_exact dataMarkers s M hfind hcat]
  refine key (t :: ts) _ rfl rfl rfl ?_
  intro u hu
  rcases List.mem_cons.mp hu with h | h
  · subst h; exact ⟨hlo, hhi⟩
  · exact hts u h

/-- Witness for C2: the sample marker covering 10 to 20 is clicked and the
lookback time update lands at 9 = start - 1; the selection stays the sample
marker in all three fields. -/
theorem manual_selection_sticky_witness :
    (((9 : ℚ) :: []).foldl (fun st u => handleTimeUpdate (some [sampleMarker]) st u)
        (handleMarkerClick (some [sampleMarker]) initialResultsState sampleMarker)).selectedMarker
      = some sampleMarker ∧
    (((9 : ℚ) :: []).foldl (fun st u => handleTimeUpdate (some [sampleMarker]) st u)
        (handleMarkerClick (some [sampleMarker]) initialResultsState sampleMarker)).manuallySelectedMarker
      = some sampleMarker ∧
    (((9 : ℚ) :: []).foldl (fun st u => handleTimeUpdate (some [sampleMarker]) st u)
        (handleMarkerClick (some [sampleMarker]) initialResultsState sampleMarker)).manualSelectionRef
      = some sampleMarker :=
  manual_selection_sticky [sampleMarker] initialResultsState sampleMarker 9
    (by simp [sampleMarker]) (by simp [sampleMarker])
    (by norm_num [sampleMarker]) (by norm_num [sampleMarker]) [] (by simp)

/-- C3 counterexample: with the single sample marker covering 10 to 20,
clicking it and then receiving a time update at time 100 — far outside the
buffer window — leaves the stale manual marker displayed even though the
automatic lookup over the full list yields none: the scheduled clear of the
manual state is not visible to the guard of the same invocation, so the
displayed marker is not resolved by the lookup on that update. -/
theorem buffer_exit_stale_counterexample :
    getCurrentMarker [sampleMarker] 100 = none ∧
    (handleTimeUpdate (some [sampleMarker])
        (handleMarkerClick (some [sampleMarker]) initialResultsState sampleMarker)
        100).selectedMarker = some sampleMarker := by
  constructor
  · norm_num [getCurrentMarker, sampleMarker, List.find?]
  · norm_num [handleTimeUpdate, handleMarkerClick, autoSelectStep, getCurrentMarker,
      sampleMarker, initialResultsState, markerKey, List.find?]

/-- C3 amended: when a time update arrives outside the 2 second buffer
window of the manually selected marker M (manual ref and manual state both
holding M, as after a click), the manual ref and the manual state are
cleared, and the automatic lookup resolves the display: if some marker
covers t, the displayed marker takes the key of the first covering marker
in list order; if none covers t, the displayed marker keeps its previous
value for that one update — the scheduled clear of the manual state is not
yet visible to the guard of the same invocation — and a repeated time
update then clears the display to none. -/
theorem buffer_exit_resolution (dataMarkers : List Marker) (s : ResultsState)
    (M : Marker) (t : ℚ)
    (href : s.manualSelectionRef = some M)
    (hms : s.manuallySelectedMarker = some M)
    (hout : ¬(M.start - 2 ≤ t ∧ t ≤ M.end_ + 2)) :
    (handleTimeUpdate (some dataMarkers) s t).manualSelectionRef = none ∧
    (handleTimeUpdate (some dataMarkers) s t).manuallySelectedMarker = none ∧
    (∀ mk, getCurrentMarker dataMarkers t = some mk →
      (handleTimeUpdate (some dataMarkers) s t).selectedMarker.map markerKey =
        some (markerKey mk)) ∧
    (getCurrentMarker dataMarkers t = none →
      (handleTimeUpdate (some dataMarkers) s t).selectedMarker = s.selectedMarker) ∧
    (getCurrentMarker dataMarkers t = none →
      (handleTimeUpdate (some dataMarkers)
          (handleTimeUpdate (some dataMarkers) s t) t).selectedMarker = none) := by
  have hstep : handleTimeUpdate (some dataMarkers) s t =
      autoSelectStep (some dataMarkers) s
        { s with currentTime := t, manualSelectionRef := none,
                 manuallySelectedMarker := none } t := by
    simp only [handleTimeUpdate, href, if_neg hout]
  cases hgc : getCurrentMarker dataMarkers t with
  | some mk =>
      refine ⟨?_, ?_, ?_, ?_, ?_⟩
      · rw [hstep]
        simp only [autoSelectStep, hgc]
        by_cases hkey : some (markerKey mk) = s.selectedMarker.map markerKey <;>
          simp [hkey]
      · rw [hstep]
        simp only [autoSelectStep, hgc]
        by_cases hkey : some (markerKey mk) = s.selectedMarker.map markerKey <;>
          simp [hkey]
      · intro mk0 hmk0
        injection hmk0 with hmk1
        subst hmk1
        rw [hstep]
        simp only [autoSelectStep, hgc]
        by_cases hkey : some (markerKey mk) = s.selectedMarker.map markerKey
        · simp only [if_pos hkey]
          exact hkey.symm
        · simp [hkey]
      · intro hnone; simp at hnone
      · intro hnone; simp at hnone
  | none =>
      have hsel : (handleTimeUpdate (some dataMarkers) s t).selectedMarker =
          s.selectedMarker := by
        rw [hstep]
        simp [autoSelectStep, hgc, hms]
      have href2 : (handleTimeUpdate (some dataMarkers) s t).manualSelectionRef = none := by
        rw [hstep]
        simp [autoSelectStep, hgc, hms]
      have hms2 : (handleTimeUpdate (some dataMarkers) s t).manuallySelectedMarker = none := by
        rw [hstep]
        simp [autoSelectStep, hgc, hms]
      refine ⟨href2, hms2, ?_, fun _ => hsel, ?_⟩
      · intro mk0 hmk0; simp at hmk0
      · intro _
        set s2 := handleTimeUpdate (some dataMarkers) s t with hs2
        have hstep2 : handleTimeUpdate (some dataMarkers) s2 t =
            autoSelectStep (some dataMarkers) s2 { s2 with currentTime := t } t := by
          simp only [handleTimeUpdate, href2, hms2]
        rw [hstep2]
        simp only [autoSelectStep, hgc, hms2, hsel]
        cases hso : s.selectedMarker with
        | none => simp [hso]
        | some x => simp [hso]

/-- Witness for the amended C3: after a click on the sample marker, a time
update at 100 — outside the buffer — clears the manual ref, and repeating
the update clears the display to none. -/
theorem buffer_exit_resolution_witness :
    (handleTimeUpdate (some [sampleMarker])
        (handleMarkerClick (some [sampleMarker]) initialResultsState sampleMarker)
        100).manualSelectionRef = none ∧
    (handleTimeUpdate (some [sampleMarker])
        (handleTimeUpdate (some [sampleMarker])
          (handleMarkerClick (some [sampleMarker]) initialResultsState sampleMarker) 100)
        100).selectedMarker = none := by
  have hclick := handleMarkerClick_exact [sampleMarker] initialResultsState sampleMarker
    (by simp [sampleMarker]) (by simp [sampleMarker])
  have h := buffer_exit_resolution [sampleMarker]
    (handleMarkerClick (some [sampleMarker]) initialResultsState sampleMarker)
    sampleMarker 100 (by rw [hclick]) (by rw [hclick]) (by norm_num [sampleMarker])
  exact ⟨h.1, h.2.2.2.2 (by norm_num [getCurrentMarker, sampleMarker, List.find?])⟩

/-- With a positive duration the timeline overlap test coincides with strict
overlap of the time intervals: the percentage positions are exact rational
scalings by 100 / d, and the right edge of a marker lands at end / d * 100. -/
theorem overlapsOnTimeline_iff (d : ℚ) (hd : 0 < d) (m ex : Marker) :
    overlapsOnTimeline d m ex = true ↔ overlapInTime ex m := by
  have hne : d ≠ 0 := ne_of_gt hd
  have hlt : ∀ x y : ℚ, x / d * 100 < y / d * 100 ↔ x < y := by
    intro x y
    rw [mul_lt_mul_right (by norm_num : (0 : ℚ) < 100)]
    exact div_lt_div_iff_of_pos_right hd
  have hsum : ∀ x y : ℚ, x / d * 100 + (y - x) / d * 100 = y / d * 100 := by
    intro x y; ring
  simp only [overlapsOnTimeline, calculateMarkerPosition, calculateMarkerWidth,
    if_neg hne, hsum, Bool.not_eq_true', Bool.or_eq_false_iff,
    decide_eq_false_iff_not, not_le, ge_iff_le, overlapInTime]
  rw [hlt, hlt]

/-- Inserting a marker into the track list adds exactly that marker to the
multiset of laid-out markers. -/
theorem flatten_insertIntoTracks (d : ℚ) (m : Marker) (tracks : List (List Marker)) :
    (insertIntoTracks d m tracks).flatten.Perm (m :: tracks.flatten) := by
  induction tracks with
  | nil => simp [insertIntoTracks]
  | cons track rest ih =>
      by_cases h : track.all (fun ex => !overlapsOnTimeline d m ex) = true
      · rw [insertIntoTracks, if_pos h]
        simp only [List.flatten_cons, List.append_assoc, List.singleton_append]
        exact List.perm_middle
      · rw [insertIntoTracks, if_neg h]
        simp only [List.flatten_cons]
        exact (List.Perm.append_left track ih).trans List.perm_middle

/-- Inserting a marker either keeps the number of tracks, or — exactly when
every existing track already holds a marker overlapping the new one on the
timeline — appends one new track. -/
theorem length_insertIntoTracks (d : ℚ) (m : Marker) (tracks : List (List Marker)) :
    (insertIntoTracks d m tracks).length = tracks.length ∨
    ((insertIntoTracks d m tracks).length = tracks.length + 1 ∧
      ∀ track ∈ tracks, ∃ ex ∈ track, overlapsOnTimeline d m ex = true) := by
  induction tracks with
  | nil =>
      right
      refine ⟨rfl, ?_⟩
      intro track htr
      simp at htr
  | cons track rest ih =>
      by_cases h : track.all (fun ex => !overlapsOnTimeline d m ex) = true
      · left
        rw [insertIntoTracks, if_pos h]
        simp
      · rw [insertIntoTracks, if_neg h]
        rcases ih with h1 | ⟨h1, h2⟩
        · left
          simp [List.length_cons, h1]
        · right
          refine ⟨by simp [List.length_cons, h1], ?_⟩
          intro tr htr
          rcases List.mem_cons.mp htr with rfl | htr2
          · rw [List.all_eq_true] at h
            push_neg at h
            obtain ⟨ex, hex, hnex⟩ := h
            exact ⟨ex, hex, by simpa using hnex⟩
          · exact h2 tr htr2

/-- Inserting into the track list preserves the per-track guarantee that no
two markers of one track overlap in time, for positive durations. -/
theorem pairwise_insertIntoTracks (d : ℚ) (hd : 0 < d) (m : Marker)
    (tracks : List (List Marker))
    (hp : ∀ track ∈ tracks, track.Pairwise (fun a b => ¬ overlapInTime a b)) :
    ∀ track ∈ insertIntoTracks d m tracks,
      track.Pairwise (fun a b => ¬ overlapInTime a b) := by
  revert hp
  induction tracks with
  | nil =>
      intro hp track htr
      rw [insertIntoTracks, List.mem_singleton] at htr
      subst htr
      simp
  | cons tr rest ih =>
      intro hp track htr
      by_cases h : tr.all (fun ex => !overlapsOnTimeline d m ex) = true
      · rw [insertIntoTracks, if_pos h] at htr
        rcases List.mem_cons.mp htr with rfl | htr2
        · rw [List.pairwise_append]
          refine ⟨hp tr (by simp), by simp, ?_⟩
          intro a ha y hy
          rw [List.mem_singleton] at hy
          rw [hy]
          rw [List.all_eq_true] at h
          have hna := h a ha
          simp only [Bool.not_eq_true'] at hna
          intro hov
          have hcontra := (overlapsOnTimeline_iff d hd m a).mpr hov
          rw [hna] at hcontra
          exact Bool.noConfusion hcontra
        · exact hp track (List.mem_cons_of_mem _ htr2)
      · rw [insertIntoTracks, if_neg h] at htr
        rcases List.mem_cons.mp htr with rfl | htr2
        · exact hp track (by simp)
        · exact ih (fun u hu => hp u (List.mem_cons_of_mem _ hu)) track htr2

/-- A permutation of the marker list leaves the coverage count unchanged. -/
theorem countCovering_perm {l1 l2 : List Marker} (h : l1.Perm l2) (t : ℚ) :
    countCovering l1 t = countCovering l2 t :=
  (h.filter _).length_eq

/-- Coverage counts add over list append. -/
theorem countCovering_append (l1 l2 : List Marker) (t : ℚ) :
    countCovering (l1 ++ l2) t = countCovering l1 t + countCovering l2 t := by
  simp [countCovering, List.filter_append]

/-- When every track holds a marker covering the instant t, the flattened
layout covers t at least once per track. -/
theorem length_le_countCovering_flatten (t : ℚ) (tracks : List (List Marker))
    (h : ∀ track ∈ tracks, ∃ ex ∈ track, ex.start ≤ t ∧ t ≤ ex.end_) :
    tracks.length ≤ countCovering tracks.flatten t := by
  revert h
  induction tracks with
  | nil =>
      intro h
      simp [countCovering]
  | cons tr rest ih =>
      intro h
      rw [List.flatten_cons, countCovering_append]
      have h1 : 0 < countCovering tr t := by
        obtain ⟨ex, hex, hcov⟩ := h tr (by simp)
        have hmem : ex ∈ tr.filter (fun m => decide (m.start ≤ t ∧ t ≤ m.end_)) := by
          rw [List.mem_filter]
          exact ⟨hex, by simpa using hcov⟩
        exact List.length_pos.mpr (List.ne_nil_of_mem hmem)
      have h2 := ih (fun u hu => h u (List.mem_cons_of_mem _ hu))
      simp only [List.length_cons]
      omega

/-- Folding the insertion over a marker list adds exactly those markers to
the flattened layout, as a multiset. -/
theorem fold_flatten_perm (d : ℚ) (l : List Marker) :
    ∀ tracks : List (List Marker),
      ((l.foldl (fun tracks marker => insertIntoTracks d marker tracks) tracks).flatten).Perm
        (tracks.flatten ++ l) := by
  induction l with
  | nil => intro tracks; simp
  | cons m l ih =>
      intro tracks
      rw [List.foldl_cons]
      refine (ih (insertIntoTracks d m tracks)).trans ?_
      refine (List.Perm.append_right l (flatten_insertIntoTracks d m tracks)).trans ?_
      simp only [List.cons_append]
      exact List.perm_middle.symm

/-- Folding the insertion preserves the per-track no-overlap guarantee. -/
theorem fold_pairwise (d : ℚ) (hd : 0 < d) (l : List Marker) :
    ∀ tracks : List (List Marker),
      (∀ track ∈ tracks, track.Pairwise (fun a b => ¬ overlapInTime a b)) →
      ∀ track ∈ l.foldl (fun tracks marker => insertIntoTracks d marker tracks) tracks,
        track.Pairwise (fun a b => ¬ overlapInTime a b) := by
  induction l with
  | nil =>
      intro tracks hp
      simpa using hp
  | cons m l ih =>
      intro tracks hp
      rw [List.foldl_cons]
      exact ih _ (pairwise_insertIntoTracks d hd m tracks hp)

/-- Core counting invariant of the greedy layout: while a start-sorted list
of well-formed markers is processed, the number of tracks never exceeds the
peak simultaneous coverage of the markers handled so far.  The processed
prefix is p; tracks is the current layout. -/
theorem fold_cover_bound (d : ℚ) (hd : 0 < d) :
    ∀ (l p : List Marker) (tracks : List (List Marker)),
      tracks.flatten.Perm p →
      (p ++ l).Pairwise (fun a b => a.start ≤ b.start) →
      (∀ m ∈ p ++ l, m.start ≤ m.end_) →
      (∃ t : ℚ, tracks.length ≤ countCovering p t) →
      ∃ t : ℚ,
        (l.foldl (fun tracks marker => insertIntoTracks d marker tracks) tracks).length ≤
          countCovering (p ++ l) t := by
  intro l
  induction l with
  | nil =>
      intro p tracks hperm hsort hse hbound
      simpa using hbound
  | cons m l ih =>
      intro p tracks hperm hsort hse hbound
      rw [List.foldl_cons]
      have hre : p ++ m :: l = (p ++ [m]) ++ l := by simp
      have hperm2 : (insertIntoTracks d m tracks).flatten.Perm (p ++ [m]) := by
        refine (flatten_insertIntoTracks d m tracks).trans ?_
        exact ((hperm.cons m).trans (List.perm_append_singleton m p).symm)
      have hsort2 : ((p ++ [m]) ++ l).Pairwise (fun a b => a.start ≤ b.start) := by
        rw [← hre]; exact hsort
      have hse2 : ∀ x ∈ (p ++ [m]) ++ l, x.start ≤ x.end_ := by
        rw [← hre]; exact hse
      have hbound2 : ∃ t : ℚ,
          (insertIntoTracks d m tracks).length ≤ countCovering (p ++ [m]) t := by
        rcases length_insertIntoTracks d m tracks with hlen | ⟨hlen, hall⟩
        · obtain ⟨t, ht⟩ := hbound
          refine ⟨t, ?_⟩
          rw [hlen, countCovering_append]
          omega
        · refine ⟨m.start, ?_⟩
          rw [hlen, countCovering_append]
          have hstarts : ∀ a ∈ p, a.start ≤ m.start := by
            rw [List.pairwise_append] at hsort
            exact fun a ha => hsort.2.2 a ha m (by simp)
          have hcover : ∀ track ∈ tracks,
              ∃ ex ∈ track, ex.start ≤ m.start ∧ m.start ≤ ex.end_ := by
            intro track htr
            obtain ⟨ex, hex, hov⟩ := hall track htr
            have hovt := (overlapsOnTimeline_iff d hd m ex).mp hov
            have hexp : ex ∈ p :=
              hperm.mem_iff.mp (List.mem_flatten.mpr ⟨track, htr, hex⟩)
            exact ⟨ex, hex, hstarts ex hexp, le_of_lt hovt.2⟩
          have h1 : tracks.length ≤ countCovering tracks.flatten m.start :=
            length_le_countCovering_flatten m.start tracks hcover
          have h2 : countCovering tracks.flatten m.start = countCovering p m.start :=
            countCovering_perm hperm m.start
          have h3 : countCovering [m] m.start = 1 := by
            have hm : m.start ≤ m.end_ := hse m (by simp)
            simp [countCovering, hm]
          omega
      obtain ⟨t, ht⟩ := ih (p ++ [m]) (insertIntoTracks d m tracks) hperm2 hsort2 hse2 hbound2
      exact ⟨t, by rwa [hre]⟩

/-- C1: for every marker list with start ≤ end and every duration d > 0,
the track assignment is valid: no two markers placed in the same lane
overlap in time (share more than a boundary instant), and the number of
lanes never exceeds the maximum number of markers whose closed intervals
simultaneously cover a single instant. -/
theorem assignMarkersToTracks_correct (ms : List Marker) (d : ℚ)
    (hd : 0 < d) (hse : ∀ m ∈ ms, m.start ≤ m.end_) :
    (∀ track ∈ assignMarkersToTracks (some ms) d,
      track.Pairwise (fun a b => ¬ overlapInTime a b)) ∧
    ∃ t : ℚ, (assignMarkersToTracks (some ms) d).length ≤ countCovering ms t := by
  by_cases hms : ms = []
  · subst hms
    constructor
    · intro track htr
      simp [assignMarkersToTracks] at htr
    · exact ⟨0, by simp [assignMarkersToTracks]⟩
  · have hcond : ¬(ms = [] ∨ d = 0) := by
      push_neg
      exact ⟨hms, ne_of_gt hd⟩
    have hassign : assignMarkersToTracks (some ms) d =
        (ms.mergeSort (fun a b => decide (a.start ≤ b.start))).foldl
          (fun tracks marker => insertIntoTracks d marker tracks) [] := by
      simp only [assignMarkersToTracks, if_neg hcond]
    have htrans : ∀ a b c : Marker,
        decide (a.start ≤ b.start) = true → decide (b.start ≤ c.start) = true →
        decide (a.start ≤ c.start) = true := by
      intro a b c hab hbc
      simp only [decide_eq_true_eq] at hab hbc ⊢
      exact le_trans hab hbc
    have htotal : ∀ a b : Marker,
        (decide (a.start ≤ b.start) || decide (b.start ≤ a.start)) = true := by
      intro a b
      simp only [Bool.or_eq_true, decide_eq_true_eq]
      exact le_total a.start b.start
    have hSperm : (ms.mergeSort (fun a b => decide (a.start ≤ b.start))).Perm ms :=
      List.mergeSort_perm ms _
    have hSsort : (ms.mergeSort (fun a b => decide (a.start ≤ b.start))).Pairwise
        (fun a b => a.start ≤ b.start) := by
      have hs0 := List.sorted_mergeSort htrans htotal ms
      exact hs0.imp (fun h => by simpa using h)
    constructor
    · rw [hassign]
      exact fold_pairwise d hd _ [] (by simp)
    · rw [hassign]
      have hmain := fold_cover_bound d hd
        (ms.mergeSort (fun a b => decide (a.start ≤ b.start))) [] []
        (by simp) (by simpa using hSsort)
        (by
          intro m hm
          rw [List.nil_append] at hm
          exact hse m (hSperm.mem_iff.mp hm))
        ⟨0, by simp [countCovering]⟩
      obtain ⟨t, ht⟩ := hmain
      rw [List.nil_append] at ht
      exact ⟨t, le_trans ht (le_of_eq (countCovering_perm hSperm t))⟩

/-- Witness for C1: the three demo markers on a duration of 10 satisfy the
lane bound. -/
theorem assignMarkersToTracks_correct_witness :
    ∃ t : ℚ, (assignMarkersToTracks (some demoMarkers) 10).length ≤
      countCovering demoMarkers t :=
  (assignMarkersToTracks_correct demoMarkers 10 (by norm_num)
    (by
      intro m hm
      simp only [demoMarkers, List.mem_cons, List.not_mem_nil, or_false] at hm
      rcases hm with rfl | rfl | rfl <;> norm_num)).2

/-- C9: the layout and sorting operations leave the marker values intact:
the lanes of assignMarkersToTracks hold exactly the input markers — none
mutated, none lost, none duplicated — and sortMarkersBySeverity returns a
permutation of its input.  Both sort a spread copy of the caller's array,
which the pure embedding renders as functions of an immutable list. -/
theorem client_layout_preserves_markers (ms : List Marker) (d : ℚ)
    (hms : ms ≠ []) (hd : d ≠ 0) :
    ((assignMarkersToTracks (some ms) d).flatten).Perm ms ∧
    (sortMarkersBySeverity ms).Perm ms := by
  constructor
  · have hcond : ¬(ms = [] ∨ d = 0) := by
      push_neg
      exact ⟨hms, hd⟩
    simp only [assignMarkersToTracks, if_neg hcond]
    refine (fold_flatten_perm d _ []).trans ?_
    simp only [List.flatten_nil, List.nil_append]
    exact List.mergeSort_perm ms _
  · exact List.mergeSort_perm ms _

/-- Witness for C9 at the demo markers and duration 10. -/
theorem client_layout_preserves_markers_witness :
    ((assignMarkersToTracks (some demoMarkers) 10).flatten).Perm demoMarkers ∧
    (sortMarkersBySeverity demoMarkers).Perm demoMarkers :=
  client_layout_preserves_markers demoMarkers 10 (by simp [demoMarkers]) (by norm_num)
